import Mathlib

/-!
# Verification of the `AlexSSD7/cache` shielded cache

A shallow embedding of `cache.go` (package `cache`): the object store, the
shield registry, the `Fetch` orchestration, the eviction worker's two
branches (interval sweep and cancellation flush), `Usage`, `DeleteObject`
and `StartWorker`, together with theorems about them.

Go's `map[string]V` is embedded as an association list with
insert-replaces-existing-key semantics; `time.Time` and `time.Duration`
are embedded as integers counting nanoseconds (Go's representation).
The producer callback `fetchFunc func() (T, error)` is embedded as a
state-passing function `PS → PS × Except E T` so that the number of
invocations, and results that change between invocations, are expressible.
-/

namespace ShieldedCacheModel

/-- `time.Time` as integer nanoseconds. -/
abbrev Time := Int

/-- `time.Duration` as integer nanoseconds (Go: `int64` nanoseconds). -/
abbrev Duration := Int

/-- Go's `time.Second` in nanoseconds. -/
def timeSecond : Duration := 1000000000

/-- `const shieldExpiry = time.Second * 5` (cache.go line 11). -/
def shieldExpiry : Duration := timeSecond * 5

/-- `CacheEntry[T]` (cache.go lines 18–21). -/
structure CacheEntry (T : Type) where
  Expires : Time
  Data : T
deriving Repr, DecidableEq

/-- `shieldEntry` (cache.go lines 13–16).  The `mu *sync.Mutex` field is a
lock and is not part of the sequential state; it is modelled explicitly in
the concurrent interleaving model below. -/
structure shieldEntry where
  lastAccessed : Time
deriving Repr, DecidableEq

/-- Lookup in a Go map embedded as an association list (`m[key]` second
form: returns `none` when absent). -/
def mapLookup {A : Type} (m : List (String × A)) (k : String) : Option A :=
  match m with
  | [] => none
  | (k', v) :: rest => if k' = k then some v else mapLookup rest k

/-- Go map assignment `m[key] = v`: replaces the existing binding of `k`
if present, otherwise appends a fresh binding. -/
def mapInsert {A : Type} (m : List (String × A)) (k : String) (v : A) :
    List (String × A) :=
  match m with
  | [] => [(k, v)]
  | (k', v') :: rest =>
    if k' = k then (k, v) :: rest else (k', v') :: mapInsert rest k v

/-- Go `delete(m, key)`. -/
def mapErase {A : Type} (m : List (String × A)) (k : String) :
    List (String × A) :=
  match m with
  | [] => []
  | (k', v') :: rest =>
    if k' = k then mapErase rest k else (k', v') :: mapErase rest k

/-- The state of a `ShieldedCache[T]` (cache.go lines 27–36).  The two
mutexes guard the maps and do not appear as sequential state;
`workerRunning uint32` (0/1) is a `Bool`. -/
structure ShieldedCache (T : Type) where
  objects : List (String × CacheEntry T)
  shields : List (String × shieldEntry)
  gcInterval : Duration
  workerRunning : Bool
deriving Repr

/-- `NewShieldedCache` (cache.go lines 40–47): empty maps, worker not
running. -/
def NewShieldedCache (T : Type) (gcInterval : Duration) : ShieldedCache T :=
  { objects := [], shields := [], gcInterval := gcInterval,
    workerRunning := false }

/-- The `error` returned by `Fetch`: either the sentinel
`ErrWorkerNotRunning` (declared in the package outside `cache.go`) or a
producer error passed through verbatim. -/
inductive CacheError (E : Type) where
  | workerNotRunning
  | producer (e : E)
deriving Repr, DecidableEq

/-- Everything `Fetch` produces: the three return values
`(*CacheEntry[T], bool, error)`, the cache state after the call, the
producer's state after the call, and how many times the producer was
invoked during the call. -/
structure FetchResult (T E PS : Type) where
  entry : Option (CacheEntry T)
  hit : Bool
  err : Option (CacheError E)
  cache : ShieldedCache T
  prodState : PS
  prodCalls : Nat
deriving Repr

/-- `Fetch` (cache.go lines 51–95), sequentially: check `workerRunning`;
look up or create the key's shield token (`lastAccessed` set to the
current time on creation); read the object store and return a hit if
present; otherwise invoke `fetchFunc` once, and on success store a fresh
`CacheEntry{Expires: now+ttl, Data: ret}` under the key.  `now` is the
value of `time.Now()` during the call. -/
def Fetch {T E PS : Type} (s : ShieldedCache T) (now : Time) (key : String)
    (ttl : Duration) (fetchFunc : PS → PS × Except E T) (ps : PS) :
    FetchResult T E PS :=
  if s.workerRunning = false then
    ⟨none, false, some .workerNotRunning, s, ps, 0⟩
  else
    let shields' :=
      match mapLookup s.shields key with
      | some _ => s.shields
      | none => mapInsert s.shields key ⟨now⟩
    let s1 := { s with shields := shields' }
    match mapLookup s1.objects key with
    | some res => ⟨some res, true, none, s1, ps, 0⟩
    | none =>
      match fetchFunc ps with
      | (ps', .error e) => ⟨none, false, some (.producer e), s1, ps', 1⟩
      | (ps', .ok ret) =>
        let res : CacheEntry T := ⟨now + ttl, ret⟩
        ⟨some res, false, none,
          { s1 with objects := mapInsert s1.objects key res }, ps', 1⟩

/-- `StartWorker` (cache.go lines 99–109): fails if already running,
otherwise sets `workerRunning` to 1 (the spawned goroutine's body is
`runWorker`, whose two branches are modelled separately below). -/
def StartWorker {T : Type} (s : ShieldedCache T) :
    Except String (ShieldedCache T) :=
  if s.workerRunning = true then .error "worker already running"
  else .ok { s with workerRunning := true }

/-- The `case <-time.After(s.gcInterval)` branch of `runWorker`
(cache.go lines 127–142): delete every object whose `Expires` is before
`now` and every shield whose `lastAccessed + shieldExpiry` is before
`now`. -/
def workerSweep {T : Type} (s : ShieldedCache T) (now : Time) :
    ShieldedCache T :=
  { s with
    objects := s.objects.filter (fun kv => !decide (kv.2.Expires < now)),
    shields := s.shields.filter
      (fun kv => !decide (kv.2.lastAccessed + shieldExpiry < now)) }

/-- The `case <-ctx.Done()` branch of `runWorker` (cache.go lines
114–126): delete every object and every shield, set `workerRunning` to 0,
and return from the loop. -/
def workerFlush {T : Type} (s : ShieldedCache T) : ShieldedCache T :=
  { s with objects := [], shields := [], workerRunning := false }

/-- `Usage` (cache.go lines 148–158): sizes of the two maps. -/
def Usage {T : Type} (s : ShieldedCache T) : Nat × Nat :=
  (s.objects.length, s.shields.length)

/-- `DeleteObject` (cache.go lines 160–165). -/
def DeleteObject {T : Type} (s : ShieldedCache T) (key : String) :
    ShieldedCache T :=
  { s with objects := mapErase s.objects key }

end ShieldedCacheModel

namespace ShieldedCacheModel

/-! ## Basic sanity checks on the embedding -/

example :
    (Fetch (T := Nat) (E := String) (NewShieldedCache Nat 100) 0 "k" 7
      (fun (u : Nat) => (u + 1, .ok u)) 0).err =
      some .workerNotRunning := by decide

/-! ## Helper lemmas about `Fetch` -/

/-- With the worker running and the key absent, `Fetch` invokes the
producer exactly once, whatever the producer returns. -/
theorem fetch_calls_of_miss {T E PS : Type} (s : ShieldedCache T)
    (now : Time) (key : String) (ttl : Duration)
    (f : PS → PS × Except E T) (ps : PS)
    (hrun : s.workerRunning = true)
    (hmiss : mapLookup s.objects key = none) :
    (Fetch s now key ttl f ps).prodCalls = 1 := by
  unfold Fetch
  rw [hrun]
  simp only [Bool.true_eq_false, if_false, hmiss]
  rcases h' : f ps with ⟨ps', r⟩
  cases r <;> simp [h']

/-- `Fetch` never invokes the producer more than once. -/
theorem fetch_calls_le_one {T E PS : Type} (s : ShieldedCache T)
    (now : Time) (key : String) (ttl : Duration)
    (f : PS → PS × Except E T) (ps : PS) :
    (Fetch s now key ttl f ps).prodCalls ≤ 1 := by
  unfold Fetch
  split
  · simp
  · cases h : mapLookup s.objects key with
    | none =>
      simp only [h]
      rcases h' : f ps with ⟨ps', r⟩
      cases r <;> simp [h']
    | some res => simp [h]

/-- The shield registry after a `Fetch` that got past the worker check:
the existing token is kept, or a fresh one with `lastAccessed = now` is
inserted. -/
def shieldsAfter {T : Type} (s : ShieldedCache T) (now : Time)
    (key : String) : List (String × shieldEntry) :=
  match mapLookup s.shields key with
  | some _ => s.shields
  | none => mapInsert s.shields key ⟨now⟩

/-- `Fetch` with the worker stopped: nothing at all happens. -/
theorem fetch_not_running_eq {T E PS : Type} (s : ShieldedCache T)
    (now : Time) (key : String) (ttl : Duration)
    (f : PS → PS × Except E T) (ps : PS)
    (hstop : s.workerRunning = false) :
    Fetch s now key ttl f ps =
      ⟨none, false, some .workerNotRunning, s, ps, 0⟩ := by
  unfold Fetch
  rw [hstop]
  simp

/-- `Fetch` on a present key: the stored entry is returned as a hit. -/
theorem fetch_hit_eq {T E PS : Type} (s : ShieldedCache T) (now : Time)
    (key : String) (ttl : Duration) (f : PS → PS × Except E T) (ps : PS)
    (entry : CacheEntry T)
    (hrun : s.workerRunning = true)
    (hhit : mapLookup s.objects key = some entry) :
    Fetch s now key ttl f ps =
      ⟨some entry, true, none, { s with shields := shieldsAfter s now key },
        ps, 0⟩ := by
  unfold Fetch shieldsAfter
  rw [hrun]
  simp only [Bool.true_eq_false, if_false, hhit]

/-- `Fetch` on an absent key whose producer fails. -/
theorem fetch_miss_err_eq {T E PS : Type} (s : ShieldedCache T)
    (now : Time) (key : String) (ttl : Duration)
    (f : PS → PS × Except E T) (ps ps1 : PS) (e : E)
    (hrun : s.workerRunning = true)
    (hmiss : mapLookup s.objects key = none)
    (hf : f ps = (ps1, .error e)) :
    Fetch s now key ttl f ps =
      ⟨none, false, some (.producer e),
        { s with shields := shieldsAfter s now key }, ps1, 1⟩ := by
  unfold Fetch shieldsAfter
  rw [hrun]
  simp only [Bool.true_eq_false, if_false, hmiss, hf]

/-- `Fetch` on an absent key whose producer succeeds. -/
theorem fetch_miss_ok_eq {T E PS : Type} (s : ShieldedCache T)
    (now : Time) (key : String) (ttl : Duration)
    (f : PS → PS × Except E T) (ps ps1 : PS) (v : T)
    (hrun : s.workerRunning = true)
    (hmiss : mapLookup s.objects key = none)
    (hf : f ps = (ps1, .ok v)) :
    Fetch s now key ttl f ps =
      ⟨some ⟨now + ttl, v⟩, false, none,
        { s with shields := shieldsAfter s now key,
                 objects := mapInsert s.objects key ⟨now + ttl, v⟩ },
        ps1, 1⟩ := by
  unfold Fetch shieldsAfter
  rw [hrun]
  simp only [Bool.true_eq_false, if_false, hmiss, hf]

/-- Looking up a key just inserted finds the inserted value. -/
theorem mapLookup_mapInsert_self {A : Type} (m : List (String × A))
    (k : String) (v : A) : mapLookup (mapInsert m k v) k = some v := by
  induction m with
  | nil => simp [mapInsert, mapLookup]
  | cons hd tl ih =>
    rcases hd with ⟨k', v'⟩
    by_cases h : k' = k <;> simp [mapInsert, mapLookup, h, ih]

/-! ## Claim theorems -/

/-- C1: if the key is absent from the Object Store and the producer
returns an error, `Fetch` returns a nil entry, `hit = false` and that same
error verbatim; the Object Store is unchanged; and a subsequent `Fetch`
for the same key (with any producer) invokes its producer again. -/
theorem c1_producer_error_not_cached {T E PS E2 PS2 : Type}
    (s : ShieldedCache T) (now now2 : Time) (key : String)
    (ttl ttl2 : Duration) (f : PS → PS × Except E T) (ps ps1 : PS) (e : E)
    (g : PS2 → PS2 × Except E2 T) (ps2 : PS2)
    (hrun : s.workerRunning = true)
    (hmiss : mapLookup s.objects key = none)
    (hf : f ps = (ps1, .error e)) :
    (Fetch s now key ttl f ps).entry = none ∧
    (Fetch s now key ttl f ps).hit = false ∧
    (Fetch s now key ttl f ps).err = some (.producer e) ∧
    (Fetch s now key ttl f ps).cache.objects = s.objects ∧
    (Fetch (Fetch s now key ttl f ps).cache now2 key ttl2 g ps2).prodCalls
      = 1 := by
  rw [fetch_miss_err_eq s now key ttl f ps ps1 e hrun hmiss hf]
  exact ⟨rfl, rfl, rfl, rfl, fetch_calls_of_miss _ now2 key ttl2 g ps2 hrun hmiss⟩

/-- C1 witness: a concrete running cache, missing key and failing
producer. -/
theorem c1_producer_error_not_cached_witness :
    (⟨[], [], 100, true⟩ : ShieldedCache Nat).workerRunning = true ∧
    mapLookup ([] : List (String × CacheEntry Nat)) "k" = none ∧
    ((fun (u : Nat) => (u + 1, (Except.error "boom" : Except String Nat))) 0
      = (1, .error "boom")) ∧
    ((Fetch (⟨[], [], 100, true⟩ : ShieldedCache Nat) 5 "k" 7
        (fun u => (u + 1, .error "boom")) 0).entry = none ∧
     (Fetch (⟨[], [], 100, true⟩ : ShieldedCache Nat) 5 "k" 7
        (fun u => (u + 1, .error "boom")) 0).hit = false ∧
     (Fetch (⟨[], [], 100, true⟩ : ShieldedCache Nat) 5 "k" 7
        (fun u => (u + 1, .error "boom")) 0).err
        = some (.producer "boom") ∧
     (Fetch (⟨[], [], 100, true⟩ : ShieldedCache Nat) 5 "k" 7
        (fun u => (u + 1, .error "boom")) 0).cache.objects = [] ∧
     (Fetch (Fetch (⟨[], [], 100, true⟩ : ShieldedCache Nat) 5 "k" 7
          (fun u => (u + 1, .error "boom")) 0).cache 6 "k" 7
        (fun (u : Nat) => (u + 1, (Except.error "again" : Except String Nat))) 0).prodCalls = 1) :=
  ⟨rfl, rfl, rfl,
    c1_producer_error_not_cached _ 5 6 "k" 7 7 _ 0 1 "boom" _ 0 rfl rfl rfl⟩

/-- C2: if the worker is not running, `Fetch` returns the
`WorkerNotRunning` error with a nil entry and `hit = false`, does not
invoke the producer, and leaves the whole cache state (objects and
shields) unchanged. -/
theorem c2_fetch_worker_not_running {T E PS : Type} (s : ShieldedCache T)
    (now : Time) (key : String) (ttl : Duration)
    (f : PS → PS × Except E T) (ps : PS)
    (hstop : s.workerRunning = false) :
    Fetch s now key ttl f ps =
      ⟨none, false, some .workerNotRunning, s, ps, 0⟩ :=
  fetch_not_running_eq s now key ttl f ps hstop

/-- C2 witness: a freshly constructed cache has the worker stopped and
`Fetch` fails accordingly. -/
theorem c2_fetch_worker_not_running_witness :
    (NewShieldedCache Nat 100).workerRunning = false ∧
    Fetch (E := String) (NewShieldedCache Nat 100) 5 "k" 7
        (fun (u : Nat) => (u + 1, .ok u)) 0 =
      ⟨none, false, some .workerNotRunning, NewShieldedCache Nat 100, 0, 0⟩ :=
  ⟨rfl, c2_fetch_worker_not_running _ 5 "k" 7 _ 0 rfl⟩

/-- C3: with the worker running, a key present in the Object Store is
returned as a hit with a nil error and no producer invocation, and the
Object Store is untouched.  No expiry check is made: the statement holds
for every `now`, in particular when `entry.Expires < now` (the witness
exercises exactly that). -/
theorem c3_hit_no_expiry_check {T E PS : Type} (s : ShieldedCache T)
    (now : Time) (key : String) (ttl : Duration)
    (f : PS → PS × Except E T) (ps : PS) (entry : CacheEntry T)
    (hrun : s.workerRunning = true)
    (hhit : mapLookup s.objects key = some entry) :
    (Fetch s now key ttl f ps).entry = some entry ∧
    (Fetch s now key ttl f ps).hit = true ∧
    (Fetch s now key ttl f ps).err = none ∧
    (Fetch s now key ttl f ps).prodCalls = 0 ∧
    (Fetch s now key ttl f ps).cache.objects = s.objects := by
  rw [fetch_hit_eq s now key ttl f ps entry hrun hhit]
  exact ⟨rfl, rfl, rfl, rfl, rfl⟩

/-- C3 witness: the stored entry expired at time 0, the fetch happens at
time 10, and it is still served as a hit. -/
theorem c3_hit_no_expiry_check_witness :
    (⟨[("k", ⟨0, 42⟩)], [], 100, true⟩ : ShieldedCache Nat).workerRunning
      = true ∧
    mapLookup (⟨[("k", ⟨0, 42⟩)], [], 100, true⟩ :
      ShieldedCache Nat).objects "k" = some ⟨0, 42⟩ ∧
    (0 : Time) < 10 ∧
    ((Fetch (E := String)
        (⟨[("k", ⟨0, 42⟩)], [], 100, true⟩ : ShieldedCache Nat) 10 "k" 7
        (fun (u : Nat) => (u + 1, .ok 99)) 0).entry = some ⟨0, 42⟩ ∧
     (Fetch (E := String)
        (⟨[("k", ⟨0, 42⟩)], [], 100, true⟩ : ShieldedCache Nat) 10 "k" 7
        (fun (u : Nat) => (u + 1, .ok 99)) 0).hit = true ∧
     (Fetch (E := String)
        (⟨[("k", ⟨0, 42⟩)], [], 100, true⟩ : ShieldedCache Nat) 10 "k" 7
        (fun (u : Nat) => (u + 1, .ok 99)) 0).err = none ∧
     (Fetch (E := String)
        (⟨[("k", ⟨0, 42⟩)], [], 100, true⟩ : ShieldedCache Nat) 10 "k" 7
        (fun (u : Nat) => (u + 1, .ok 99)) 0).prodCalls = 0 ∧
     (Fetch (E := String)
        (⟨[("k", ⟨0, 42⟩)], [], 100, true⟩ : ShieldedCache Nat) 10 "k" 7
        (fun (u : Nat) => (u + 1, .ok 99)) 0).cache.objects
        = [("k", ⟨0, 42⟩)]) :=
  ⟨rfl, rfl, by decide,
    c3_hit_no_expiry_check _ 10 "k" 7 _ 0 ⟨0, 42⟩ rfl rfl⟩

/-- C4: on a miss with a successful producer, `Fetch` builds
`CacheEntry{Expires := now + ttl, Data := v}`, stores it under the key by
whole-map insertion (replacing, never mutating in place), and returns it
with `hit = false` and a nil error. -/
theorem c4_miss_success_stores {T E PS : Type} (s : ShieldedCache T)
    (now : Time) (key : String) (ttl : Duration)
    (f : PS → PS × Except E T) (ps ps1 : PS) (v : T)
    (hrun : s.workerRunning = true)
    (hmiss : mapLookup s.objects key = none)
    (hf : f ps = (ps1, .ok v)) :
    (Fetch s now key ttl f ps).entry = some ⟨now + ttl, v⟩ ∧
    (Fetch s now key ttl f ps).hit = false ∧
    (Fetch s now key ttl f ps).err = none ∧
    (Fetch s now key ttl f ps).cache.objects
      = mapInsert s.objects key ⟨now + ttl, v⟩ ∧
    mapLookup (Fetch s now key ttl f ps).cache.objects key
      = some ⟨now + ttl, v⟩ := by
  rw [fetch_miss_ok_eq s now key ttl f ps ps1 v hrun hmiss hf]
  exact ⟨rfl, rfl, rfl, rfl, mapLookup_mapInsert_self _ key _⟩

/-- C4 witness: concrete miss-then-store at time 5 with ttl 7. -/
theorem c4_miss_success_stores_witness :
    (⟨[], [], 100, true⟩ : ShieldedCache Nat).workerRunning = true ∧
    mapLookup ([] : List (String × CacheEntry Nat)) "k" = none ∧
    ((fun (u : Nat) => (u + 1, (Except.ok 42 : Except String Nat))) 0
      = (1, .ok 42)) ∧
    ((Fetch (E := String) (⟨[], [], 100, true⟩ : ShieldedCache Nat) 5 "k" 7
        (fun u => (u + 1, .ok 42)) 0).entry = some ⟨12, 42⟩ ∧
     (Fetch (E := String) (⟨[], [], 100, true⟩ : ShieldedCache Nat) 5 "k" 7
        (fun u => (u + 1, .ok 42)) 0).hit = false ∧
     (Fetch (E := String) (⟨[], [], 100, true⟩ : ShieldedCache Nat) 5 "k" 7
        (fun u => (u + 1, .ok 42)) 0).err = none ∧
     (Fetch (E := String) (⟨[], [], 100, true⟩ : ShieldedCache Nat) 5 "k" 7
        (fun u => (u + 1, .ok 42)) 0).cache.objects
        = mapInsert [] "k" ⟨12, 42⟩ ∧
     mapLookup (Fetch (E := String)
        (⟨[], [], 100, true⟩ : ShieldedCache Nat) 5 "k" 7
        (fun u => (u + 1, .ok 42)) 0).cache.objects "k" = some ⟨12, 42⟩) :=
  ⟨rfl, rfl, rfl,
    c4_miss_success_stores _ 5 "k" 7 _ 0 1 42 rfl rfl rfl⟩

/-- C5: for a fresh key and a successful producer, the first `Fetch`
misses and returns the produced value (one producer invocation), an
immediately following `Fetch` on the same key hits with the identical
data and does not invoke its producer, and any single `Fetch` call ever
invokes its producer at most once. -/
theorem c5_miss_then_hit {T E PS E2 PS2 T3 E3 PS3 : Type}
    (s : ShieldedCache T) (now now2 : Time) (key : String)
    (ttl ttl2 : Duration) (f : PS → PS × Except E T) (ps ps1 : PS) (v : T)
    (g : PS2 → PS2 × Except E2 T) (ps2 : PS2)
    (s3 : ShieldedCache T3) (now3 : Time) (key3 : String) (ttl3 : Duration)
    (h3 : PS3 → PS3 × Except E3 T3) (ps3 : PS3)
    (hrun : s.workerRunning = true)
    (hmissObj : mapLookup s.objects key = none)
    (_hmissSh : mapLookup s.shields key = none)
    (hf : f ps = (ps1, .ok v)) :
    (Fetch s now key ttl f ps).hit = false ∧
    (Fetch s now key ttl f ps).entry = some ⟨now + ttl, v⟩ ∧
    (Fetch s now key ttl f ps).err = none ∧
    (Fetch s now key ttl f ps).prodCalls = 1 ∧
    (Fetch (Fetch s now key ttl f ps).cache now2 key ttl2 g ps2).hit
      = true ∧
    (Fetch (Fetch s now key ttl f ps).cache now2 key ttl2 g ps2).entry
      = some ⟨now + ttl, v⟩ ∧
    (Fetch (Fetch s now key ttl f ps).cache now2 key ttl2 g ps2).err
      = none ∧
    (Fetch (Fetch s now key ttl f ps).cache now2 key ttl2 g ps2).prodCalls
      = 0 ∧
    (Fetch s3 now3 key3 ttl3 h3 ps3).prodCalls ≤ 1 := by
  have h1 := fetch_miss_ok_eq s now key ttl f ps ps1 v hrun hmissObj hf
  have hcache : (Fetch s now key ttl f ps).cache
      = { s with shields := shieldsAfter s now key,
                 objects := mapInsert s.objects key ⟨now + ttl, v⟩ } := by
    rw [h1]
  have h2 := fetch_hit_eq
    ({ s with shields := shieldsAfter s now key,
              objects := mapInsert s.objects key ⟨now + ttl, v⟩ })
    now2 key ttl2 g ps2 ⟨now + ttl, v⟩ hrun
    (mapLookup_mapInsert_self s.objects key ⟨now + ttl, v⟩)
  rw [hcache, h2, h1]
  exact ⟨rfl, rfl, rfl, rfl, rfl, rfl, rfl, rfl,
    fetch_calls_le_one s3 now3 key3 ttl3 h3 ps3⟩

/-- C5 witness: concrete miss-then-hit on key `"k"` at times 5 then 6. -/
theorem c5_miss_then_hit_witness :
    (⟨[], [], 100, true⟩ : ShieldedCache Nat).workerRunning = true ∧
    mapLookup ([] : List (String × CacheEntry Nat)) "k" = none ∧
    mapLookup ([] : List (String × shieldEntry)) "k" = none ∧
    ((fun (u : Nat) => (u + 1, (Except.ok 42 : Except String Nat))) 0
      = (1, .ok 42)) ∧
    ((Fetch (E := String) (⟨[], [], 100, true⟩ : ShieldedCache Nat) 5 "k" 7
        (fun u => (u + 1, .ok 42)) 0).hit = false ∧
     (Fetch (E := String) (⟨[], [], 100, true⟩ : ShieldedCache Nat) 5 "k" 7
        (fun u => (u + 1, .ok 42)) 0).entry = some ⟨12, 42⟩ ∧
     (Fetch (E := String) (⟨[], [], 100, true⟩ : ShieldedCache Nat) 5 "k" 7
        (fun u => (u + 1, .ok 42)) 0).err = none ∧
     (Fetch (E := String) (⟨[], [], 100, true⟩ : ShieldedCache Nat) 5 "k" 7
        (fun u => (u + 1, .ok 42)) 0).prodCalls = 1 ∧
     (Fetch (Fetch (E := String)
          (⟨[], [], 100, true⟩ : ShieldedCache Nat) 5 "k" 7
          (fun u => (u + 1, .ok 42)) 0).cache 6 "k" 7
        (fun (u : Nat) => (u + 1, (Except.ok 99 : Except String Nat)))
        0).hit = true ∧
     (Fetch (Fetch (E := String)
          (⟨[], [], 100, true⟩ : ShieldedCache Nat) 5 "k" 7
          (fun u => (u + 1, .ok 42)) 0).cache 6 "k" 7
        (fun (u : Nat) => (u + 1, (Except.ok 99 : Except String Nat)))
        0).entry = some ⟨12, 42⟩ ∧
     (Fetch (Fetch (E := String)
          (⟨[], [], 100, true⟩ : ShieldedCache Nat) 5 "k" 7
          (fun u => (u + 1, .ok 42)) 0).cache 6 "k" 7
        (fun (u : Nat) => (u + 1, (Except.ok 99 : Except String Nat)))
        0).err = none ∧
     (Fetch (Fetch (E := String)
          (⟨[], [], 100, true⟩ : ShieldedCache Nat) 5 "k" 7
          (fun u => (u + 1, .ok 42)) 0).cache 6 "k" 7
        (fun (u : Nat) => (u + 1, (Except.ok 99 : Except String Nat)))
        0).prodCalls = 0 ∧
     (Fetch (E := String) (⟨[], [], 100, true⟩ : ShieldedCache Nat) 8 "j" 7
        (fun (u : Nat) => (u + 1, .ok 13)) 0).prodCalls ≤ 1) :=
  ⟨rfl, rfl, rfl, rfl,
    c5_miss_then_hit _ 5 6 "k" 7 7 _ 0 1 42 _ 0 _ 8 "j" 7 _ 0
      rfl rfl rfl rfl⟩

/-- C10: the three return values of `Fetch` are mutually consistent:
`hit = true` implies a non-nil entry and nil error; a non-nil error
implies a nil entry and `hit = false`; a nil error with `hit = false`
while the worker is running implies a non-nil entry; and never both a
non-nil entry and a non-nil error. -/
theorem c10_result_consistency {T E PS : Type} (s : ShieldedCache T)
    (now : Time) (key : String) (ttl : Duration)
    (f : PS → PS × Except E T) (ps : PS) :
    ((Fetch s now key ttl f ps).hit = true →
      ((Fetch s now key ttl f ps).entry.isSome = true ∧
       (Fetch s now key ttl f ps).err = none)) ∧
    ((Fetch s now key ttl f ps).err.isSome = true →
      ((Fetch s now key ttl f ps).entry = none ∧
       (Fetch s now key ttl f ps).hit = false)) ∧
    (s.workerRunning = true → (Fetch s now key ttl f ps).err = none →
      (Fetch s now key ttl f ps).hit = false →
      (Fetch s now key ttl f ps).entry.isSome = true) ∧
    ¬((Fetch s now key ttl f ps).entry.isSome = true ∧
      (Fetch s now key ttl f ps).err.isSome = true) := by
  cases hw : s.workerRunning with
  | false =>
    rw [fetch_not_running_eq s now key ttl f ps hw]
    simp
  | true =>
    cases hl : mapLookup s.objects key with
    | some entry =>
      rw [fetch_hit_eq s now key ttl f ps entry hw hl]
      simp
    | none =>
      rcases hfp : f ps with ⟨ps1, r⟩
      cases r with
      | error e =>
        rw [fetch_miss_err_eq s now key ttl f ps ps1 e hw hl hfp]
        simp
      | ok v =>
        rw [fetch_miss_ok_eq s now key ttl f ps ps1 v hw hl hfp]
        simp

/-- C10 witness: the consistency conjunction instantiated at a concrete
call. -/
theorem c10_result_consistency_witness :
    ((Fetch (E := String) (⟨[], [], 100, true⟩ : ShieldedCache Nat) 5 "k" 7
        (fun (u : Nat) => (u + 1, .ok 42)) 0).hit = true →
      ((Fetch (E := String)
          (⟨[], [], 100, true⟩ : ShieldedCache Nat) 5 "k" 7
          (fun (u : Nat) => (u + 1, .ok 42)) 0).entry.isSome = true ∧
       (Fetch (E := String)
          (⟨[], [], 100, true⟩ : ShieldedCache Nat) 5 "k" 7
          (fun (u : Nat) => (u + 1, .ok 42)) 0).err = none)) ∧
    ((Fetch (E := String) (⟨[], [], 100, true⟩ : ShieldedCache Nat) 5 "k" 7
        (fun (u : Nat) => (u + 1, .ok 42)) 0).err.isSome = true →
      ((Fetch (E := String)
          (⟨[], [], 100, true⟩ : ShieldedCache Nat) 5 "k" 7
          (fun (u : Nat) => (u + 1, .ok 42)) 0).entry = none ∧
       (Fetch (E := String)
          (⟨[], [], 100, true⟩ : ShieldedCache Nat) 5 "k" 7
          (fun (u : Nat) => (u + 1, .ok 42)) 0).hit = false)) ∧
    ((⟨[], [], 100, true⟩ : ShieldedCache Nat).workerRunning = true →
      (Fetch (E := String) (⟨[], [], 100, true⟩ : ShieldedCache Nat) 5 "k" 7
        (fun (u : Nat) => (u + 1, .ok 42)) 0).err = none →
      (Fetch (E := String) (⟨[], [], 100, true⟩ : ShieldedCache Nat) 5 "k" 7
        (fun (u : Nat) => (u + 1, .ok 42)) 0).hit = false →
      (Fetch (E := String) (⟨[], [], 100, true⟩ : ShieldedCache Nat) 5 "k" 7
        (fun (u : Nat) => (u + 1, .ok 42)) 0).entry.isSome = true) ∧
    ¬((Fetch (E := String) (⟨[], [], 100, true⟩ : ShieldedCache Nat) 5 "k" 7
        (fun (u : Nat) => (u + 1, .ok 42)) 0).entry.isSome = true ∧
      (Fetch (E := String) (⟨[], [], 100, true⟩ : ShieldedCache Nat) 5 "k" 7
        (fun (u : Nat) => (u + 1, .ok 42)) 0).err.isSome = true) :=
  c10_result_consistency (⟨[], [], 100, true⟩ : ShieldedCache Nat) 5 "k" 7
    (fun (u : Nat) => (u + 1, .ok 42)) 0

/-- Membership in an inserted map: the element was already there or is
the inserted binding. -/
theorem mem_mapInsert {A : Type} (m : List (String × A)) (k : String)
    (v : A) (x : String × A) :
    x ∈ mapInsert m k v → x ∈ m ∨ x = (k, v) := by
  induction m with
  | nil => intro hx; simpa [mapInsert] using hx
  | cons hd tl ih =>
    rcases hd with ⟨k', v'⟩
    intro hx
    by_cases h : k' = k
    · simp only [mapInsert, if_pos h, List.mem_cons] at hx
      rcases hx with hx | hx
      · right; exact hx
      · left; exact List.mem_cons_of_mem _ hx
    · simp only [mapInsert, if_neg h, List.mem_cons] at hx
      rcases hx with hx | hx
      · left; exact hx ▸ List.mem_cons_self _ _
      · rcases ih hx with h' | h'
        · left; exact List.mem_cons_of_mem _ h'
        · right; exact h'

/-- Membership survives `mapErase` in the backwards direction. -/
theorem mem_mapErase {A : Type} (m : List (String × A)) (k : String)
    (x : String × A) : x ∈ mapErase m k → x ∈ m := by
  induction m with
  | nil => intro hx; simp [mapErase] at hx
  | cons hd tl ih =>
    rcases hd with ⟨k', v'⟩
    intro hx
    by_cases h : k' = k
    · simp only [mapErase, if_pos h] at hx
      exact List.mem_cons_of_mem _ (ih hx)
    · simp only [mapErase, if_neg h, List.mem_cons] at hx
      rcases hx with hx | hx
      · exact hx ▸ List.mem_cons_self _ _
      · exact List.mem_cons_of_mem _ (ih hx)

/-- C6: an interval wakeup of the worker removes from the Object Store
exactly the entries with `Expires < now`, removes from the Shield
Registry exactly the tokens with `lastAccessed + shieldExpiry < now`
where `shieldExpiry` is the fixed 5 seconds, leaves everything else (and
the running flag, so the loop continues) unchanged. -/
theorem c6_sweep_removes_exactly_expired {T : Type} (s : ShieldedCache T)
    (now : Time) (key shkey : String) (e : CacheEntry T)
    (sh : shieldEntry) :
    ((key, e) ∈ (workerSweep s now).objects ↔
      ((key, e) ∈ s.objects ∧ ¬(e.Expires < now))) ∧
    ((shkey, sh) ∈ (workerSweep s now).shields ↔
      ((shkey, sh) ∈ s.shields ∧ ¬(sh.lastAccessed + shieldExpiry < now))) ∧
    shieldExpiry = 5000000000 ∧
    (workerSweep s now).workerRunning = s.workerRunning ∧
    (workerSweep s now).gcInterval = s.gcInterval := by
  refine ⟨?_, ?_, by decide, rfl, rfl⟩
  · simp [workerSweep, List.mem_filter]
  · simp [workerSweep, List.mem_filter]

/-- C6 witness: the sweep characterization instantiated at time 20 on a
cache holding one live and one expired object and one fresh shield. -/
theorem c6_sweep_removes_exactly_expired_witness :
    (("live", (⟨25, 1⟩ : CacheEntry Nat)) ∈
        (workerSweep (⟨[("live", ⟨25, 1⟩), ("dead", ⟨10, 2⟩)],
          [("sh", ⟨0⟩)], 100, true⟩ : ShieldedCache Nat) 20).objects ↔
      (("live", (⟨25, 1⟩ : CacheEntry Nat)) ∈
        ([("live", ⟨25, 1⟩), ("dead", ⟨10, 2⟩)] :
          List (String × CacheEntry Nat)) ∧ ¬((25 : Time) < 20))) ∧
    (("sh", (⟨0⟩ : shieldEntry)) ∈
        (workerSweep (⟨[("live", ⟨25, 1⟩), ("dead", ⟨10, 2⟩)],
          [("sh", ⟨0⟩)], 100, true⟩ : ShieldedCache Nat) 20).shields ↔
      (("sh", (⟨0⟩ : shieldEntry)) ∈
        ([("sh", ⟨0⟩)] : List (String × shieldEntry)) ∧
        ¬((0 : Time) + shieldExpiry < 20))) ∧
    shieldExpiry = 5000000000 ∧
    (workerSweep (⟨[("live", ⟨25, 1⟩), ("dead", ⟨10, 2⟩)],
      [("sh", ⟨0⟩)], 100, true⟩ : ShieldedCache Nat) 20).workerRunning
      = true ∧
    (workerSweep (⟨[("live", ⟨25, 1⟩), ("dead", ⟨10, 2⟩)],
      [("sh", ⟨0⟩)], 100, true⟩ : ShieldedCache Nat) 20).gcInterval
      = 100 :=
  c6_sweep_removes_exactly_expired
    (⟨[("live", ⟨25, 1⟩), ("dead", ⟨10, 2⟩)],
      [("sh", ⟨0⟩)], 100, true⟩ : ShieldedCache Nat) 20 "live" "sh"
    ⟨25, 1⟩ ⟨0⟩

/-- C7: when the cancellation scope fires, the worker drops every entry
and every token regardless of expiry, transitions `Running -> Stopped`,
and `Usage` afterwards reports `(0, 0)`. -/
theorem c7_flush_on_cancel {T : Type} (s : ShieldedCache T) :
    (workerFlush s).objects = [] ∧
    (workerFlush s).shields = [] ∧
    (workerFlush s).workerRunning = false ∧
    Usage (workerFlush s) = (0, 0) := by
  refine ⟨rfl, rfl, rfl, rfl⟩

/-- `P` holds of the payload of every entry present in the Object
Store. -/
def EntriesSatisfy {T : Type} (P : T → Prop) (s : ShieldedCache T) :
    Prop :=
  ∀ key (e : CacheEntry T), (key, e) ∈ s.objects → P e.Data

/-- C8: if every stored entry's data came from a successful producer
invocation (expressed by an arbitrary predicate `P` holding of all
successful producer results and of the current store), then after
`Fetch`, the worker's sweep, the worker's flush, `DeleteObject` and
`StartWorker` every stored entry's data still satisfies `P`: no error
result is ever stored. -/
theorem c8_store_only_produced_values {T E PS : Type} (P : T → Prop)
    (s : ShieldedCache T) (now tnow : Time) (key dkey : String)
    (ttl : Duration) (f : PS → PS × Except E T) (ps : PS)
    (hs : EntriesSatisfy P s)
    (hprod : ∀ (q q' : PS) (v : T), f q = (q', Except.ok v) → P v) :
    EntriesSatisfy P (Fetch s now key ttl f ps).cache ∧
    EntriesSatisfy P (workerSweep s tnow) ∧
    EntriesSatisfy P (workerFlush s) ∧
    EntriesSatisfy P (DeleteObject s dkey) ∧
    (∀ s', StartWorker s = .ok s' → EntriesSatisfy P s') := by
  refine ⟨?_, ?_, ?_, ?_, ?_⟩
  · cases hw : s.workerRunning with
    | false =>
      rw [fetch_not_running_eq s now key ttl f ps hw]
      exact hs
    | true =>
      cases hl : mapLookup s.objects key with
      | some entry =>
        rw [fetch_hit_eq s now key ttl f ps entry hw hl]
        exact hs
      | none =>
        rcases hfp : f ps with ⟨ps1, r⟩
        cases r with
        | error e =>
          rw [fetch_miss_err_eq s now key ttl f ps ps1 e hw hl hfp]
          exact hs
        | ok v =>
          rw [fetch_miss_ok_eq s now key ttl f ps ps1 v hw hl hfp]
          intro k e hk
          rcases mem_mapInsert s.objects key ⟨now + ttl, v⟩ (k, e) hk
            with h' | h'
          · exact hs k e h'
          · rw [show e = ⟨now + ttl, v⟩ from congrArg Prod.snd h']
            exact hprod ps ps1 v hfp
  · intro k e hk
    exact hs k e ((List.mem_filter.mp hk).1)
  · intro k e hk
    simp [workerFlush] at hk
  · intro k e hk
    exact hs k e (mem_mapErase s.objects dkey (k, e) hk)
  · intro s' hs'
    unfold StartWorker at hs'
    by_cases hw : s.workerRunning = true
    · rw [if_pos hw] at hs'
      cases hs'
    · rw [if_neg hw] at hs'
      cases hs'
      exact hs

/-- C8 witness: a singleton store of even values, a producer returning an
even value, and all five operations preserving evenness of stored
data. -/
theorem c8_store_only_produced_values_witness :
    EntriesSatisfy (fun v => v % 2 = 0)
      (⟨[("a", ⟨50, 4⟩)], [], 100, true⟩ : ShieldedCache Nat) ∧
    (∀ (q q' : Nat) (v : Nat),
      (fun (u : Nat) => (u + 1, (Except.ok 42 : Except String Nat))) q
        = (q', Except.ok v) → v % 2 = 0) ∧
    (EntriesSatisfy (fun v => v % 2 = 0)
      (Fetch (⟨[("a", ⟨50, 4⟩)], [], 100, true⟩ : ShieldedCache Nat) 5 "k" 7
        (fun (u : Nat) => (u + 1, (Except.ok 42 : Except String Nat)))
        0).cache ∧
     EntriesSatisfy (fun v => v % 2 = 0)
      (workerSweep
        (⟨[("a", ⟨50, 4⟩)], [], 100, true⟩ : ShieldedCache Nat) 20) ∧
     EntriesSatisfy (fun v => v % 2 = 0)
      (workerFlush
        (⟨[("a", ⟨50, 4⟩)], [], 100, true⟩ : ShieldedCache Nat)) ∧
     EntriesSatisfy (fun v => v % 2 = 0)
      (DeleteObject
        (⟨[("a", ⟨50, 4⟩)], [], 100, true⟩ : ShieldedCache Nat) "a") ∧
     (∀ s', StartWorker
        (⟨[("a", ⟨50, 4⟩)], [], 100, true⟩ : ShieldedCache Nat) = .ok s' →
        EntriesSatisfy (fun v => v % 2 = 0) s')) :=
  ⟨by
    intro k e hk
    simp only [List.mem_singleton] at hk
    rw [show e = (⟨50, 4⟩ : CacheEntry Nat) from congrArg Prod.snd hk]
    rfl,
   by
    intro q q' v h
    simp only [Prod.mk.injEq, Except.ok.injEq] at h
    omega,
   c8_store_only_produced_values (fun v => v % 2 = 0)
    (⟨[("a", ⟨50, 4⟩)], [], 100, true⟩ : ShieldedCache Nat) 5 20 "k" "a" 7
    (fun (u : Nat) => (u + 1, (Except.ok 42 : Except String Nat))) 0
    (by
      intro k e hk
      simp only [List.mem_singleton] at hk
      rw [show e = (⟨50, 4⟩ : CacheEntry Nat) from congrArg Prod.snd hk]
      rfl)
    (by
      intro q q' v h
      simp only [Prod.mk.injEq, Except.ok.injEq] at h
      omega)⟩

/-!
## Interleaving model of concurrent `Fetch` calls on one key

For the shielding property (cache.go lines 58–94) the sequential model is
not enough: it concerns N threads racing through `Fetch` for the same
missing key.  Below, each thread executing `Fetch(key, ttl, fetchFunc)`
is a small program counter walking through the atomic sections of the Go
code:

  * `start -> gotToken`: the `shieldsMu`-guarded lookup-or-create of the
    key's `shieldEntry` (lines 58–67), atomic because `shieldsMu` is held
    throughout.  Token identity (the `*sync.Mutex` pointer) is a `Nat`
    allocated from `nextTok`.
  * `gotToken -> locked`: `shield.mu.Lock()` (line 69); enabled only
    when no thread owns that token's mutex.
  * `locked -> done` (hit) or `locked -> missed`: the
    `objectsMu.RLock`-guarded read (lines 72–78).
  * `missed -> producing -> produced`: the `fetchFunc()` call (line 80),
    two transitions so that two producer invocations could overlap in the
    interleaving if mutual exclusion failed.  `prodVal idx` is the result
    of the idx-th invocation, counted by `prodCalls`.
  * `produced -> done`: the `objectsMu`-guarded write on success
    (lines 85–94) or the error return (lines 81–83); either way the
    deferred `shield.mu.Unlock()` (line 70) releases the token.

The eviction worker takes no steps in this relation: claim C9 is scoped
"absent the stale-shield-eviction edge case of §9", i.e. to executions
in which the worker does not remove the key's shield token mid-flight.
-/

/-- The program counter of one thread inside `Fetch`. -/
inductive Phase (T E : Type) where
  | start
  | gotToken (tok : Nat)
  | locked (tok : Nat)
  | missed (tok : Nat)
  | producing (tok : Nat) (idx : Nat)
  | produced (tok : Nat) (r : Except E T)
  | done (entry : Option (CacheEntry T)) (hit : Bool) (err : Option E)

/-- Shared state of the interleaving model: the object store, the shield
registry (key to token identity), the ownership map of every token's
mutex, the token allocator, the thread array and the total number of
producer invocations started so far. -/
structure ConcState (T E : Type) where
  objects : List (String × CacheEntry T)
  shields : List (String × Nat)
  owner : Nat → Option Nat
  nextTok : Nat
  threads : List (Phase T E)
  prodCalls : Nat

/-- Initial state for N threads about to call `Fetch` on a fresh key:
both stores empty, no mutex held, every thread at `start`. -/
def initConc (T E : Type) (n : Nat) : ConcState T E :=
  { objects := [], shields := [], owner := fun _ => none, nextTok := 0,
    threads := List.replicate n .start, prodCalls := 0 }

/-- One atomic step of one thread, all threads fetching the same `key`
with the same `ttl`; `prodVal idx` is what the idx-th producer
invocation returns. -/
inductive Step {T E : Type} (key : String) (ttl : Duration)
    (prodVal : Nat → Except E T) :
    ConcState T E → ConcState T E → Prop where
  | getToken_existing (s : ConcState T E) (i tok : Nat)
      (hi : s.threads[i]? = some .start)
      (hreg : mapLookup s.shields key = some tok) :
      Step key ttl prodVal s
        { s with threads := s.threads.set i (.gotToken tok) }
  | getToken_new (s : ConcState T E) (i : Nat)
      (hi : s.threads[i]? = some .start)
      (hreg : mapLookup s.shields key = none) :
      Step key ttl prodVal s
        { s with
          shields := mapInsert s.shields key s.nextTok,
          nextTok := s.nextTok + 1,
          threads := s.threads.set i (.gotToken s.nextTok) }
  | acquire (s : ConcState T E) (i tok : Nat)
      (hi : s.threads[i]? = some (.gotToken tok))
      (hfree : s.owner tok = none) :
      Step key ttl prodVal s
        { s with owner := Function.update s.owner tok (some i),
                 threads := s.threads.set i (.locked tok) }
  | check_hit (s : ConcState T E) (i tok : Nat) (e : CacheEntry T)
      (hi : s.threads[i]? = some (.locked tok))
      (hl : mapLookup s.objects key = some e) :
      Step key ttl prodVal s
        { s with owner := Function.update s.owner tok none,
                 threads := s.threads.set i (.done (some e) true none) }
  | check_miss (s : ConcState T E) (i tok : Nat)
      (hi : s.threads[i]? = some (.locked tok))
      (hl : mapLookup s.objects key = none) :
      Step key ttl prodVal s
        { s with threads := s.threads.set i (.missed tok) }
  | beginProduce (s : ConcState T E) (i tok : Nat)
      (hi : s.threads[i]? = some (.missed tok)) :
      Step key ttl prodVal s
        { s with
          threads := s.threads.set i (.producing tok s.prodCalls),
          prodCalls := s.prodCalls + 1 }
  | endProduce (s : ConcState T E) (i tok idx : Nat)
      (hi : s.threads[i]? = some (.producing tok idx)) :
      Step key ttl prodVal s
        { s with threads := s.threads.set i (.produced tok (prodVal idx)) }
  | finish_ok (s : ConcState T E) (i tok : Nat) (val : T) (tnow : Time)
      (hi : s.threads[i]? = some (.produced tok (.ok val))) :
      Step key ttl prodVal s
        { s with
          objects := mapInsert s.objects key ⟨tnow + ttl, val⟩,
          owner := Function.update s.owner tok none,
          threads :=
            s.threads.set i (.done (some ⟨tnow + ttl, val⟩) false none) }
  | finish_err (s : ConcState T E) (i tok : Nat) (e : E)
      (hi : s.threads[i]? = some (.produced tok (.error e))) :
      Step key ttl prodVal s
        { s with owner := Function.update s.owner tok none,
                 threads := s.threads.set i (.done none false (some e)) }

/-- Reachability from a state through interleaved thread steps. -/
def ReachableFrom {T E : Type} (key : String) (ttl : Duration)
    (prodVal : Nat → Except E T) : ConcState T E → ConcState T E → Prop :=
  Relation.ReflTransGen (Step key ttl prodVal)

/-- The token whose mutex a thread in this phase is holding, if any
(held from `shield.mu.Lock()` to the deferred unlock). -/
def phaseLockTok {T E : Type} : Phase T E → Option Nat
  | .locked tok => some tok
  | .missed tok => some tok
  | .producing tok _ => some tok
  | .produced tok _ => some tok
  | _ => none

/-- Phases that account for one started producer invocation: currently
inside the producer, returned from it, or finished a `Fetch` that was
not a hit. -/
def advancedB {T E : Type} : Phase T E → Bool
  | .producing _ _ => true
  | .produced _ _ => true
  | .done _ hit _ => !hit
  | _ => false

/-- Per-thread invariant of the interleaving model, stated relative to
the shared state; `v` is the value every producer invocation returns. -/
def PhaseOK {T E : Type} (key : String) (v : T) (s : ConcState T E)
    (i : Nat) : Phase T E → Prop
  | .start => True
  | .gotToken tok => mapLookup s.shields key = some tok
  | .locked tok =>
      mapLookup s.shields key = some tok ∧ s.owner tok = some i
  | .missed tok =>
      mapLookup s.shields key = some tok ∧ s.owner tok = some i ∧
      mapLookup s.objects key = none
  | .producing tok _ =>
      mapLookup s.shields key = some tok ∧ s.owner tok = some i ∧
      mapLookup s.objects key = none
  | .produced tok r =>
      mapLookup s.shields key = some tok ∧ s.owner tok = some i ∧
      mapLookup s.objects key = none ∧ r = Except.ok v
  | .done entry _ err =>
      err = none ∧ (∃ t, entry = some ⟨t, v⟩) ∧
      (mapLookup s.objects key).isSome = true

/-- The global invariant of the interleaving model. -/
structure ConcInv {T E : Type} (key : String) (v : T) (n : Nat)
    (s : ConcState T E) : Prop where
  len : s.threads.length = n
  phases : ∀ i ph, s.threads[i]? = some ph → PhaseOK key v s i ph
  owner_mem : ∀ tok j, s.owner tok = some j →
    ∃ ph, s.threads[j]? = some ph ∧ phaseLockTok ph = some tok
  store_val : ∀ e, mapLookup s.objects key = some e → e.Data = v
  calls_eq : s.prodCalls = s.threads.countP advancedB
  calls_le : s.prodCalls ≤ 1
  store_calls : (mapLookup s.objects key).isSome = true → 1 ≤ s.prodCalls

/-- Case split for a lookup in an updated thread list. -/
theorem getElem?_set_cases {α : Type} {l : List α} {i j : Nat} {a ph : α}
    (h : (l.set i a)[j]? = some ph) :
    (j = i ∧ ph = a ∧ i < l.length) ∨ (j ≠ i ∧ l[j]? = some ph) := by
  have hlen : j < l.length := by
    rcases List.getElem?_eq_some.mp h with ⟨hlt, _⟩
    simpa using hlt
  by_cases hij : j = i
  · subst hij
    rw [List.getElem?_set_self hlen] at h
    exact Or.inl ⟨rfl, (Option.some_injective _ h).symm, hlen⟩
  · rw [List.getElem?_set_ne (Ne.symm hij)] at h
    exact Or.inr ⟨hij, h⟩

/-- Setting one cell changes `countP` by the difference of the flags of
the new and old cell contents. -/
theorem countP_set {α : Type} {l : List α} {i : Nat} {b : α} (a : α)
    (p : α → Bool) (h : l[i]? = some b) :
    (l.set i a).countP p + (if p b then 1 else 0)
      = l.countP p + (if p a then 1 else 0) := by
  induction l generalizing i with
  | nil => simp at h
  | cons hd tl ih =>
    cases i with
    | zero =>
      simp at h
      subst h
      simp [List.set, List.countP_cons]
      omega
    | succ m =>
      simp at h
      simp [List.set, List.countP_cons]
      have := ih h
      omega

/-- A lock-holding phase pins down both the registry token and the
owner map. -/
theorem phaseOK_of_lock {T E : Type} {key : String} {v : T}
    {s : ConcState T E} {i : Nat} {ph : Phase T E} {tok : Nat}
    (hok : PhaseOK key v s i ph) (hl : phaseLockTok ph = some tok) :
    mapLookup s.shields key = some tok ∧ s.owner tok = some i := by
  cases ph with
  | locked tok' =>
    simp only [phaseLockTok, Option.some_inj] at hl
    subst hl
    exact hok
  | missed tok' =>
    simp only [phaseLockTok, Option.some_inj] at hl
    subst hl
    exact ⟨hok.1, hok.2.1⟩
  | producing tok' idx =>
    simp only [phaseLockTok, Option.some_inj] at hl
    subst hl
    exact ⟨hok.1, hok.2.1⟩
  | produced tok' r =>
    simp only [phaseLockTok, Option.some_inj] at hl
    subst hl
    exact ⟨hok.1, hok.2.1⟩
  | start => simp [phaseLockTok] at hl
  | gotToken tok' => simp [phaseLockTok] at hl
  | done entry hit err => simp [phaseLockTok] at hl

/-- Two lock-holding threads are the same thread holding the same
token: there is only one registry token for the key and one owner per
token. -/
theorem lock_unique {T E : Type} {key : String} {v : T} {n : Nat}
    {s : ConcState T E} (inv : ConcInv key v n s)
    {i j toki tokj : Nat} {phi phj : Phase T E}
    (hi : s.threads[i]? = some phi) (hti : phaseLockTok phi = some toki)
    (hj : s.threads[j]? = some phj) (htj : phaseLockTok phj = some tokj) :
    i = j ∧ toki = tokj := by
  have h1 := phaseOK_of_lock (inv.phases i phi hi) hti
  have h2 := phaseOK_of_lock (inv.phases j phj hj) htj
  have htok : toki = tokj := by
    have := h1.1.symm.trans h2.1
    exact Option.some_injective _ this
  subst htok
  have := h1.2.symm.trans h2.2
  exact ⟨Option.some_injective _ this, rfl⟩

/-- Updating a cell that exists, then reading it back. -/
theorem getElem?_set_self' {α : Type} {l : List α} {i : Nat} {b : α}
    (a : α) (hi : l[i]? = some b) : (l.set i a)[i]? = some a := by
  have hlen : i < l.length := by
    rcases List.getElem?_eq_some.mp hi with ⟨hlt, _⟩
    simpa using hlt
  exact List.getElem?_set_self hlen

/-- A cell whose flag is set forces a positive count. -/
theorem one_le_countP_of_getElem? {α : Type} {l : List α} {i : Nat}
    {b : α} {p : α → Bool} (hi : l[i]? = some b) (hp : p b = true) :
    1 ≤ l.countP p :=
  List.countP_pos_iff.mpr ⟨b, List.getElem?_mem hi, hp⟩

/-- A positive count exhibits a flagged cell. -/
theorem exists_getElem?_of_one_le_countP {α : Type} {l : List α}
    {p : α → Bool} (h : 1 ≤ l.countP p) :
    ∃ (j : Nat) (b : α), l[j]? = some b ∧ p b = true := by
  rcases List.countP_pos_iff.mp h with ⟨b, hmem, hp⟩
  rcases List.mem_iff_getElem?.mp hmem with ⟨j, hj⟩
  exact ⟨j, b, hj, hp⟩

/-- The initial state satisfies the invariant. -/
theorem concInv_init {T E : Type} (key : String) (v : T) (n : Nat) :
    ConcInv key v n (initConc T E n) := by
  refine ⟨?_, ?_, ?_, ?_, ?_, ?_, ?_⟩
  · simp [initConc]
  · intro i ph h
    have hmem := List.getElem?_mem h
    rw [List.eq_of_mem_replicate hmem]
    trivial
  · intro tok j h
    simp [initConc] at h
  · intro e h
    simp [initConc, mapLookup] at h
  · have hz : (List.replicate n (Phase.start : Phase T E)).countP advancedB
        = 0 := by
      rw [List.countP_eq_zero]
      intro a ha
      rw [List.eq_of_mem_replicate ha]
      simp [advancedB]
    simpa [initConc] using hz.symm
  · exact Nat.zero_le 1
  · intro h
    simp [initConc, mapLookup] at h

/-- `PhaseOK` only reads the key's registry binding, the key's store
binding, and the owner of the thread's own token. -/
theorem phaseOK_congr {T E : Type} {key : String} {v : T}
    {s s' : ConcState T E} {j : Nat} {ph : Phase T E}
    (hsh : mapLookup s'.shields key = mapLookup s.shields key)
    (hobj : mapLookup s'.objects key = mapLookup s.objects key)
    (hown : ∀ tok, phaseLockTok ph = some tok →
      s.owner tok = some j → s'.owner tok = some j)
    (hok : PhaseOK key v s j ph) : PhaseOK key v s' j ph := by
  cases ph with
  | start => trivial
  | gotToken tok =>
    show mapLookup s'.shields key = some tok
    rw [hsh]; exact hok
  | locked tok =>
    exact ⟨by rw [hsh]; exact hok.1, hown tok rfl hok.2⟩
  | missed tok =>
    exact ⟨by rw [hsh]; exact hok.1, hown tok rfl hok.2.1,
      by rw [hobj]; exact hok.2.2⟩
  | producing tok idx =>
    exact ⟨by rw [hsh]; exact hok.1, hown tok rfl hok.2.1,
      by rw [hobj]; exact hok.2.2⟩
  | produced tok r =>
    exact ⟨by rw [hsh]; exact hok.1, hown tok rfl hok.2.1,
      by rw [hobj]; exact hok.2.2.1, hok.2.2.2⟩
  | done entry hit err =>
    exact ⟨hok.1, hok.2.1, by rw [hobj]; exact hok.2.2⟩

/-- Invariant preservation: reading an existing shield token. -/
theorem concInv_getToken_existing {T E : Type} {key : String} {v : T}
    {n : Nat} {s : ConcState T E} {i tok : Nat}
    (inv : ConcInv key v n s)
    (hi : s.threads[i]? = some .start)
    (hreg : mapLookup s.shields key = some tok) :
    ConcInv key v n
      { s with threads := s.threads.set i (.gotToken tok) } := by
  refine ⟨?_, ?_, ?_, inv.store_val, ?_, inv.calls_le, inv.store_calls⟩
  · simp [List.length_set, inv.len]
  · intro j ph hj
    rcases getElem?_set_cases hj with ⟨hji, hpha, hlt⟩ | ⟨hne, hold⟩
    · subst hji; subst hpha
      exact hreg
    · exact phaseOK_congr rfl rfl (fun _ _ h => h) (inv.phases j ph hold)
  · intro tok' j h
    rcases inv.owner_mem tok' j h with ⟨ph, hj, hl⟩
    by_cases hji : j = i
    · subst hji
      rw [hi] at hj
      have hst := Option.some_injective _ hj
      rw [← hst] at hl
      simp [phaseLockTok] at hl
    · exact ⟨ph, by rw [List.getElem?_set_ne (Ne.symm hji)]; exact hj, hl⟩
  · have hc := countP_set (Phase.gotToken (T := T) (E := E) tok)
      advancedB hi
    simp only [advancedB] at hc
    have h0 := inv.calls_eq
    simp only []
    omega

/-- Invariant preservation: creating the key's shield token. -/
theorem concInv_getToken_new {T E : Type} {key : String} {v : T}
    {n : Nat} {s : ConcState T E} {i : Nat}
    (inv : ConcInv key v n s)
    (hi : s.threads[i]? = some .start)
    (hreg : mapLookup s.shields key = none) :
    ConcInv key v n
      { s with
        shields := mapInsert s.shields key s.nextTok,
        nextTok := s.nextTok + 1,
        threads := s.threads.set i (.gotToken s.nextTok) } := by
  refine ⟨?_, ?_, ?_, inv.store_val, ?_, inv.calls_le, inv.store_calls⟩
  · simp [List.length_set, inv.len]
  · intro j ph hj
    rcases getElem?_set_cases hj with ⟨hji, hpha, hlt⟩ | ⟨hne, hold⟩
    · subst hji; subst hpha
      exact mapLookup_mapInsert_self s.shields key s.nextTok
    · have hok := inv.phases j ph hold
      cases ph with
      | start => trivial
      | gotToken tokj => simp [PhaseOK, hreg] at hok
      | locked tokj => simp [PhaseOK, hreg] at hok
      | missed tokj => simp [PhaseOK, hreg] at hok
      | producing tokj idxj => simp [PhaseOK, hreg] at hok
      | produced tokj r => simp [PhaseOK, hreg] at hok
      | done entry hit err => exact hok
  · intro tok' j h
    rcases inv.owner_mem tok' j h with ⟨ph, hj, hl⟩
    by_cases hji : j = i
    · subst hji
      rw [hi] at hj
      have hst := Option.some_injective _ hj
      rw [← hst] at hl
      simp [phaseLockTok] at hl
    · exact ⟨ph, by rw [List.getElem?_set_ne (Ne.symm hji)]; exact hj, hl⟩
  · have hc := countP_set (Phase.gotToken (T := T) (E := E) s.nextTok)
      advancedB hi
    simp only [advancedB] at hc
    have h0 := inv.calls_eq
    simp only []
    omega

/-- Invariant preservation: acquiring a free token mutex. -/
theorem concInv_acquire {T E : Type} {key : String} {v : T}
    {n : Nat} {s : ConcState T E} {i tok : Nat}
    (inv : ConcInv key v n s)
    (hi : s.threads[i]? = some (.gotToken tok))
    (hfree : s.owner tok = none) :
    ConcInv key v n
      { s with owner := Function.update s.owner tok (some i),
               threads := s.threads.set i (.locked tok) } := by
  have hoki := inv.phases i _ hi
  refine ⟨?_, ?_, ?_, inv.store_val, ?_, inv.calls_le, inv.store_calls⟩
  · simp [List.length_set, inv.len]
  · intro j ph hj
    rcases getElem?_set_cases hj with ⟨hji, hpha, hlt⟩ | ⟨hne, hold⟩
    · subst hji; subst hpha
      exact ⟨hoki, by simp⟩
    · refine phaseOK_congr (by rfl) (by rfl) ?_ (inv.phases j ph hold)
      intro tokj _ hownj
      have htokne : tokj ≠ tok := by
        intro he
        rw [he, hfree] at hownj
        exact Option.noConfusion hownj
      show Function.update s.owner tok (some i) tokj = some j
      rw [Function.update_noteq htokne]
      exact hownj
  · intro tok' j h
    have h' : Function.update s.owner tok (some i) tok' = some j := h
    by_cases htok : tok' = tok
    · subst htok
      rw [Function.update_same] at h'
      have hji := Option.some_injective _ h'
      subst hji
      exact ⟨.locked tok', getElem?_set_self' _ hi, rfl⟩
    · rw [Function.update_noteq htok] at h'
      rcases inv.owner_mem tok' j h' with ⟨ph, hj, hl⟩
      by_cases hji : j = i
      · subst hji
        rw [hi] at hj
        have hst := Option.some_injective _ hj
        rw [← hst] at hl
        simp [phaseLockTok] at hl
      · exact ⟨ph, by rw [List.getElem?_set_ne (Ne.symm hji)]; exact hj, hl⟩
  · have hc := countP_set (Phase.locked (T := T) (E := E) tok)
      advancedB hi
    simp only [advancedB] at hc
    have h0 := inv.calls_eq
    simp only []
    omega

/-- Invariant preservation: a hit while holding the lock. -/
theorem concInv_check_hit {T E : Type} {key : String} {v : T}
    {n : Nat} {s : ConcState T E} {i tok : Nat} {e : CacheEntry T}
    (inv : ConcInv key v n s)
    (hi : s.threads[i]? = some (.locked tok))
    (hl : mapLookup s.objects key = some e) :
    ConcInv key v n
      { s with owner := Function.update s.owner tok none,
               threads := s.threads.set i (.done (some e) true none) } := by
  have hoki := inv.phases i _ hi
  refine ⟨?_, ?_, ?_, inv.store_val, ?_, inv.calls_le, inv.store_calls⟩
  · simp [List.length_set, inv.len]
  · intro j ph hj
    rcases getElem?_set_cases hj with ⟨hji, hpha, hlt⟩ | ⟨hne, hold⟩
    · subst hji; subst hpha
      refine ⟨rfl, ⟨e.Expires, ?_⟩, ?_⟩
      · have hd := inv.store_val e hl
        cases e
        simp_all
      · show (mapLookup s.objects key).isSome = true
        rw [hl]; rfl
    · refine phaseOK_congr (by rfl) (by rfl) ?_ (inv.phases j ph hold)
      intro tokj hlt hownj
      have htokne : tokj ≠ tok := by
        intro he
        subst he
        rcases lock_unique inv hold hlt hi rfl with ⟨hji, -⟩
        exact hne hji
      show Function.update s.owner tok none tokj = some j
      rw [Function.update_noteq htokne]
      exact hownj
  · intro tok' j h
    have h' : Function.update s.owner tok none tok' = some j := h
    by_cases htok : tok' = tok
    · subst htok
      rw [Function.update_same] at h'
      exact Option.noConfusion h'
    · rw [Function.update_noteq htok] at h'
      rcases inv.owner_mem tok' j h' with ⟨ph, hj, hlj⟩
      by_cases hji : j = i
      · subst hji
        rw [hi] at hj
        have hst := Option.some_injective _ hj
        rw [← hst] at hlj
        simp only [phaseLockTok, Option.some_inj] at hlj
        exact absurd (hlj.symm) htok
      · exact ⟨ph, by rw [List.getElem?_set_ne (Ne.symm hji)]; exact hj,
          hlj⟩
  · have hc := countP_set
      (Phase.done (T := T) (E := E) (some e) true none) advancedB hi
    simp [advancedB] at hc
    have h0 := inv.calls_eq
    simp only []
    omega

/-- Invariant preservation: a miss while holding the lock. -/
theorem concInv_check_miss {T E : Type} {key : String} {v : T}
    {n : Nat} {s : ConcState T E} {i tok : Nat}
    (inv : ConcInv key v n s)
    (hi : s.threads[i]? = some (.locked tok))
    (hl : mapLookup s.objects key = none) :
    ConcInv key v n
      { s with threads := s.threads.set i (.missed tok) } := by
  have hoki := inv.phases i _ hi
  refine ⟨?_, ?_, ?_, inv.store_val, ?_, inv.calls_le, inv.store_calls⟩
  · simp [List.length_set, inv.len]
  · intro j ph hj
    rcases getElem?_set_cases hj with ⟨hji, hpha, hlt⟩ | ⟨hne, hold⟩
    · subst hji; subst hpha
      exact ⟨hoki.1, hoki.2, hl⟩
    · exact phaseOK_congr rfl rfl (fun _ _ h => h) (inv.phases j ph hold)
  · intro tok' j h
    rcases inv.owner_mem tok' j h with ⟨ph, hj, hlj⟩
    by_cases hji : j = i
    · subst hji
      rw [hi] at hj
      have hst := Option.some_injective _ hj
      rw [← hst] at hlj
      simp only [phaseLockTok, Option.some_inj] at hlj
      subst hlj
      exact ⟨.missed tok, getElem?_set_self' _ hi, rfl⟩
    · exact ⟨ph, by rw [List.getElem?_set_ne (Ne.symm hji)]; exact hj, hlj⟩
  · have hc := countP_set (Phase.missed (T := T) (E := E) tok)
      advancedB hi
    simp only [advancedB] at hc
    have h0 := inv.calls_eq
    simp only []
    omega

/-- Invariant preservation: starting a producer invocation.  The key
fact is that no invocation can already have been started: any already
advanced thread would either hold this thread's lock or have made the
store non-empty. -/
theorem concInv_beginProduce {T E : Type} {key : String} {v : T}
    {n : Nat} {s : ConcState T E} {i tok : Nat}
    (inv : ConcInv key v n s)
    (hi : s.threads[i]? = some (.missed tok)) :
    ConcInv key v n
      { s with
        threads := s.threads.set i (.producing tok s.prodCalls),
        prodCalls := s.prodCalls + 1 } := by
  have hoki := inv.phases i _ hi
  have hzero : s.prodCalls = 0 := by
    by_contra hnz
    have h1 : 1 ≤ s.prodCalls := Nat.one_le_iff_ne_zero.mpr hnz
    rw [inv.calls_eq] at h1
    rcases exists_getElem?_of_one_le_countP h1 with ⟨j, b, hj, hb⟩
    cases b with
    | producing tokj idxj =>
      rcases lock_unique inv hi rfl hj rfl with ⟨hij, -⟩
      rw [← hij] at hj
      rw [hi] at hj
      exact Phase.noConfusion (Option.some_injective _ hj)
    | produced tokj r =>
      rcases lock_unique inv hi rfl hj rfl with ⟨hij, -⟩
      rw [← hij] at hj
      rw [hi] at hj
      exact Phase.noConfusion (Option.some_injective _ hj)
    | done entry hit err =>
      have hokj := inv.phases j _ hj
      have h2 := hokj.2.2
      rw [hoki.2.2] at h2
      simp at h2
    | start => simp [advancedB] at hb
    | gotToken tokj => simp [advancedB] at hb
    | locked tokj => simp [advancedB] at hb
    | missed tokj => simp [advancedB] at hb
  refine ⟨?_, ?_, ?_, inv.store_val, ?_, ?_, ?_⟩
  · simp [List.length_set, inv.len]
  · intro j ph hj
    rcases getElem?_set_cases hj with ⟨hji, hpha, hlt⟩ | ⟨hne, hold⟩
    · subst hji; subst hpha
      exact ⟨hoki.1, hoki.2.1, hoki.2.2⟩
    · exact phaseOK_congr rfl rfl (fun _ _ h => h) (inv.phases j ph hold)
  · intro tok' j h
    rcases inv.owner_mem tok' j h with ⟨ph, hj, hlj⟩
    by_cases hji : j = i
    · subst hji
      rw [hi] at hj
      have hst := Option.some_injective _ hj
      rw [← hst] at hlj
      simp only [phaseLockTok, Option.some_inj] at hlj
      subst hlj
      exact ⟨.producing tok s.prodCalls, getElem?_set_self' _ hi, rfl⟩
    · exact ⟨ph, by rw [List.getElem?_set_ne (Ne.symm hji)]; exact hj, hlj⟩
  · have hc := countP_set
      (Phase.producing (T := T) (E := E) tok s.prodCalls) advancedB hi
    simp [advancedB] at hc
    have h0 := inv.calls_eq
    simp only []
    omega
  · simp only []
    omega
  · intro hs
    simp only []
    omega

/-- Invariant preservation: the producer invocation returns. -/
theorem concInv_endProduce {T E : Type} {key : String} {v : T} {n : Nat}
    {prodVal : Nat → Except E T} {s : ConcState T E} {i tok idx : Nat}
    (hv : ∀ m, prodVal m = Except.ok v)
    (inv : ConcInv key v n s)
    (hi : s.threads[i]? = some (.producing tok idx)) :
    ConcInv key v n
      { s with
        threads := s.threads.set i (.produced tok (prodVal idx)) } := by
  have hoki := inv.phases i _ hi
  refine ⟨?_, ?_, ?_, inv.store_val, ?_, inv.calls_le, inv.store_calls⟩
  · simp [List.length_set, inv.len]
  · intro j ph hj
    rcases getElem?_set_cases hj with ⟨hji, hpha, hlt⟩ | ⟨hne, hold⟩
    · subst hji; subst hpha
      exact ⟨hoki.1, hoki.2.1, hoki.2.2, hv idx⟩
    · exact phaseOK_congr rfl rfl (fun _ _ h => h) (inv.phases j ph hold)
  · intro tok' j h
    rcases inv.owner_mem tok' j h with ⟨ph, hj, hlj⟩
    by_cases hji : j = i
    · subst hji
      rw [hi] at hj
      have hst := Option.some_injective _ hj
      rw [← hst] at hlj
      simp only [phaseLockTok, Option.some_inj] at hlj
      subst hlj
      exact ⟨.produced tok (prodVal idx), getElem?_set_self' _ hi, rfl⟩
    · exact ⟨ph, by rw [List.getElem?_set_ne (Ne.symm hji)]; exact hj, hlj⟩
  · have hc := countP_set
      (Phase.produced (T := T) (E := E) tok (prodVal idx)) advancedB hi
    simp [advancedB] at hc
    have h0 := inv.calls_eq
    simp only []
    omega

/-- Invariant preservation: publishing the produced value and releasing
the lock. -/
theorem concInv_finish_ok {T E : Type} {key : String} {ttl : Duration}
    {v : T} {n : Nat} {s : ConcState T E} {i tok : Nat} {val : T}
    {tnow : Time}
    (inv : ConcInv key v n s)
    (hi : s.threads[i]? = some (.produced tok (.ok val))) :
    ConcInv key v n
      { s with
        objects := mapInsert s.objects key ⟨tnow + ttl, val⟩,
        owner := Function.update s.owner tok none,
        threads :=
          s.threads.set i (.done (some ⟨tnow + ttl, val⟩) false none) } := by
  have hoki := inv.phases i _ hi
  have hval : val = v := by
    have h2 := hoki.2.2.2
    simpa using h2
  refine ⟨?_, ?_, ?_, ?_, ?_, inv.calls_le, ?_⟩
  · simp [List.length_set, inv.len]
  · intro j ph hj
    rcases getElem?_set_cases hj with ⟨hji, hpha, hlt⟩ | ⟨hne, hold⟩
    · subst hji; subst hpha
      refine ⟨rfl, ⟨tnow + ttl, by rw [hval]⟩, ?_⟩
      show (mapLookup (mapInsert s.objects key ⟨tnow + ttl, val⟩)
        key).isSome = true
      rw [mapLookup_mapInsert_self]
      rfl
    · have hok := inv.phases j ph hold
      cases ph with
      | start => trivial
      | gotToken tokj => exact hok
      | done entry hit err =>
        refine ⟨hok.1, hok.2.1, ?_⟩
        show (mapLookup (mapInsert s.objects key ⟨tnow + ttl, val⟩)
          key).isSome = true
        rw [mapLookup_mapInsert_self]
        rfl
      | locked tokj =>
        exfalso
        rcases lock_unique inv hold rfl hi rfl with ⟨hji, -⟩
        exact hne hji
      | missed tokj =>
        exfalso
        rcases lock_unique inv hold rfl hi rfl with ⟨hji, -⟩
        exact hne hji
      | producing tokj idxj =>
        exfalso
        rcases lock_unique inv hold rfl hi rfl with ⟨hji, -⟩
        exact hne hji
      | produced tokj r =>
        exfalso
        rcases lock_unique inv hold rfl hi rfl with ⟨hji, -⟩
        exact hne hji
  · intro tok' j h
    have h' : Function.update s.owner tok none tok' = some j := h
    by_cases htok : tok' = tok
    · subst htok
      rw [Function.update_same] at h'
      exact Option.noConfusion h'
    · rw [Function.update_noteq htok] at h'
      rcases inv.owner_mem tok' j h' with ⟨ph, hj, hlj⟩
      by_cases hji : j = i
      · subst hji
        rw [hi] at hj
        have hst := Option.some_injective _ hj
        rw [← hst] at hlj
        simp only [phaseLockTok, Option.some_inj] at hlj
        exact absurd hlj.symm htok
      · exact ⟨ph, by rw [List.getElem?_set_ne (Ne.symm hji)]; exact hj,
          hlj⟩
  · intro e he
    have he' : mapLookup (mapInsert s.objects key ⟨tnow + ttl, val⟩) key
        = some e := he
    rw [mapLookup_mapInsert_self] at he'
    have hee := Option.some_injective _ he'
    rw [← hee]
    exact hval
  · have hc := countP_set
      (Phase.done (T := T) (E := E) (some ⟨tnow + ttl, val⟩) false none)
      advancedB hi
    simp [advancedB] at hc
    have h0 := inv.calls_eq
    simp only []
    omega
  · intro hs
    have h1 : 1 ≤ s.threads.countP advancedB :=
      one_le_countP_of_getElem? hi rfl
    have h0 := inv.calls_eq
    simp only []
    omega

/-- Invariant preservation: the error return path is unreachable when
every producer invocation succeeds. -/
theorem concInv_finish_err {T E : Type} {key : String} {v : T} {n : Nat}
    {s : ConcState T E} {i tok : Nat} {e : E}
    (inv : ConcInv key v n s)
    (hi : s.threads[i]? = some (.produced tok (.error e))) :
    ConcInv key v n
      { s with owner := Function.update s.owner tok none,
               threads := s.threads.set i (.done none false (some e)) } := by
  have hoki := inv.phases i _ hi
  exact absurd hoki.2.2.2 (by simp)

/-- Every step preserves the invariant when every producer invocation
returns `.ok v`. -/
theorem concInv_step {T E : Type} {key : String} {ttl : Duration}
    {prodVal : Nat → Except E T} {v : T} {n : Nat} {s s' : ConcState T E}
    (hv : ∀ m, prodVal m = Except.ok v)
    (inv : ConcInv key v n s)
    (hstep : Step key ttl prodVal s s') : ConcInv key v n s' := by
  cases hstep with
  | getToken_existing i tok hi hreg =>
    exact concInv_getToken_existing inv hi hreg
  | getToken_new i hi hreg => exact concInv_getToken_new inv hi hreg
  | acquire i tok hi hfree => exact concInv_acquire inv hi hfree
  | check_hit i tok e hi hl => exact concInv_check_hit inv hi hl
  | check_miss i tok hi hl => exact concInv_check_miss inv hi hl
  | beginProduce i tok hi => exact concInv_beginProduce inv hi
  | endProduce i tok idx hi => exact concInv_endProduce hv inv hi
  | finish_ok i tok val tnow hi => exact concInv_finish_ok inv hi
  | finish_err i tok e hi => exact concInv_finish_err inv hi

/-- The invariant holds in every state reachable from the initial
state. -/
theorem concInv_reachable {T E : Type} {key : String} {ttl : Duration}
    {prodVal : Nat → Except E T} {v : T} {n : Nat} {s : ConcState T E}
    (hv : ∀ m, prodVal m = Except.ok v)
    (hreach : ReachableFrom key ttl prodVal (initConc T E n) s) :
    ConcInv key v n s := by
  induction hreach with
  | refl => exact concInv_init key v n
  | tail hpre hstep ih => exact concInv_step hv ih hstep

/-- C9: for N threads concurrently fetching the same missing key with a
producer that returns `v`, in every reachable interleaving (with the
worker's stale-shield sweep not firing, per the §9 proviso): no two
distinct threads are ever simultaneously inside the producer; the
producer has been invoked at most once; every caller that has returned
observed the single produced value `v` with no error; and once all N ≥ 1
callers have returned, the producer was invoked exactly once. -/
theorem c9_shielding_mutual_exclusion {T E : Type} {key : String}
    {ttl : Duration} {prodVal : Nat → Except E T} (v : T) (n : Nat)
    (s : ConcState T E) (i j toki tokj idxi idxj : Nat)
    (entry : Option (CacheEntry T)) (hit : Bool) (err : Option E)
    (hv : ∀ m, prodVal m = Except.ok v)
    (hreach : ReachableFrom key ttl prodVal (initConc T E n) s) :
    (i ≠ j → s.threads[i]? = some (.producing toki idxi) →
      s.threads[j]? = some (.producing tokj idxj) → False) ∧
    s.prodCalls ≤ 1 ∧
    (s.threads[i]? = some (.done entry hit err) →
      err = none ∧ ∃ t, entry = some ⟨t, v⟩) ∧
    ((∀ (m : Nat) (ph : Phase T E), s.threads[m]? = some ph →
        ∃ e2 h2 r2, ph = .done e2 h2 r2) → 1 ≤ n → s.prodCalls = 1) := by
  have inv := concInv_reachable hv hreach
  refine ⟨?_, inv.calls_le, ?_, ?_⟩
  · intro hne hpi hpj
    rcases lock_unique inv hpi rfl hpj rfl with ⟨hij, -⟩
    exact hne hij
  · intro hdone
    have hok := inv.phases i _ hdone
    exact ⟨hok.1, hok.2.1⟩
  · intro hall hn
    have hlt : 0 < s.threads.length := by rw [inv.len]; omega
    have hget : s.threads[0]? = some (s.threads.get ⟨0, hlt⟩) := by
      simp
    rcases hall 0 (s.threads.get ⟨0, hlt⟩) hget with ⟨e2, h2, r2, hph⟩
    have hd0 : s.threads[0]? = some (.done e2 h2 r2) := by
      rw [hget, hph]
    have hok := inv.phases 0 _ hd0
    have hsome := inv.store_calls hok.2.2
    have hle := inv.calls_le
    omega

/-- The producer used by the concrete two-thread execution below. -/
def c9ProdVal : Nat → Except String Nat := fun _ => Except.ok 42

/-- The final state of a complete two-thread execution: thread 0 missed,
produced and published 42; thread 1 then hit. -/
def c9FinalState : ConcState Nat String :=
  { objects := [("k", ⟨12, 42⟩)],
    shields := [("k", 0)],
    owner := Function.update (Function.update (Function.update
      (Function.update (fun _ => (none : Option Nat)) 0 (some 0)) 0 none)
      0 (some 1)) 0 none,
    nextTok := 1,
    threads := [.done (some ⟨12, 42⟩) false none,
                .done (some ⟨12, 42⟩) true none],
    prodCalls := 1 }

/-- The two-thread execution itself: thread 0 runs a full miss-produce
round at time 5 with ttl 7, then thread 1 acquires the same token and
hits. -/
theorem c9FinalState_reachable :
    ReachableFrom "k" 7 c9ProdVal (initConc Nat String 2) c9FinalState :=
  Relation.ReflTransGen.tail
    (Relation.ReflTransGen.tail
      (Relation.ReflTransGen.tail
        (Relation.ReflTransGen.tail
          (Relation.ReflTransGen.tail
            (Relation.ReflTransGen.tail
              (Relation.ReflTransGen.tail
                (Relation.ReflTransGen.tail
                  (Relation.ReflTransGen.tail
                    (Relation.ReflTransGen.refl)
                    (Step.getToken_new _ 0 rfl rfl))
                  (Step.acquire _ 0 0 rfl rfl))
                (Step.check_miss _ 0 0 rfl rfl))
              (Step.beginProduce _ 0 0 rfl))
            (Step.endProduce _ 0 0 0 rfl))
          (Step.finish_ok _ 0 0 42 5 rfl))
        (Step.getToken_existing _ 1 0 rfl rfl))
      (Step.acquire _ 1 0 rfl rfl))
    (Step.check_hit _ 1 0 ⟨12, 42⟩ rfl rfl)

/-- C9 witness: the shielding theorem instantiated at the complete
two-thread execution. -/
theorem c9_shielding_mutual_exclusion_witness :
    (∀ m, c9ProdVal m = Except.ok 42) ∧
    ReachableFrom "k" 7 c9ProdVal (initConc Nat String 2) c9FinalState ∧
    ((0 ≠ 1 → c9FinalState.threads[0]? = some (.producing 0 0) →
      c9FinalState.threads[1]? = some (.producing 0 0) → False) ∧
     c9FinalState.prodCalls ≤ 1 ∧
     (c9FinalState.threads[0]?
        = some (.done (some ⟨12, 42⟩) false none) →
      (none : Option String) = none ∧
        ∃ t, (some (⟨12, 42⟩ : CacheEntry Nat))
          = some (⟨t, 42⟩ : CacheEntry Nat)) ∧
     ((∀ (m : Nat) (ph : Phase Nat String),
        c9FinalState.threads[m]? = some ph →
        ∃ e2 h2 r2, ph = .done e2 h2 r2) → 1 ≤ 2 →
      c9FinalState.prodCalls = 1)) :=
  ⟨fun _ => rfl, c9FinalState_reachable,
    c9_shielding_mutual_exclusion 42 2 c9FinalState 0 1 0 0 0 0
      (some ⟨12, 42⟩) false none (fun _ => rfl) c9FinalState_reachable⟩

end ShieldedCacheModel
